import Mathlib

/-!
A verification development for the Dev-Quests progression engine
(`src/app.js`).  The state/progression engine is shallowly embedded:

* JavaScript numbers used by the engine are integers in every reachable
  code path, so they are modelled as `Int` (counts that are manifestly
  non-negative, such as the streak, are `Nat`).
* JavaScript objects used as string-keyed dictionaries (`dailies`,
  `history`) are association lists `List (String × Int)` with unique-key
  update (`setVal`) and defaulted lookup (`getVal`, matching
  `obj[k] || 0`).
* Calendar dates manipulated through the host `Date` object are modelled
  by a civil (proleptic Gregorian) date record `CivilDate`; `prevDay`
  models `d.setDate(d.getDate() - 1)` and `dateStr` models the
  `YYYY-MM-DD` formatting of `getTodayString`.
* `Math.floor(Math.sqrt(xp / 100))` on integer `xp ≥ 0` equals the
  integer square root of `xp / 100` (floor of a real square root equals
  the integer square root of the floor), computed here by the structural
  function `isqrt`, proved equal to `Nat.sqrt`.
* DOM rendering, persistence (`StorageManager`) and the deferred popup
  notifications are external collaborators and are not modelled; the
  engine functions below return the mutated state snapshot.
-/

/-! ## Definitions -/

/-! ### String-keyed maps (JavaScript object dictionaries) -/

/-- Lookup in a string-keyed object: `some v` when the key is present. -/
def getVal? (l : List (String × Int)) (k : String) : Option Int :=
  (l.find? (fun p => p.1 == k)).map Prod.snd

/-- Defaulted lookup, modelling `obj[k] || 0`. -/
def getVal (l : List (String × Int)) (k : String) : Int :=
  (getVal? l k).getD 0

/-- Assignment `obj[k] = v`: replace the (unique) binding, else append. -/
def setVal : List (String × Int) → String → Int → List (String × Int)
  | [], k, v => [(k, v)]
  | p :: ps, k, v => if p.1 == k then (k, v) :: ps else p :: setVal ps k v

/-! ### Progression math (`BASE_XP`, `calculateLevel`, `xpForNextLevel`) -/

/-- `const BASE_XP = 100`. -/
def BASE_XP : Nat := 100

/-- Structural integer square root (counts up; fuel `n` suffices). -/
def isqrtGo (n : Nat) : Nat → Nat → Nat
  | 0, k => k
  | fuel + 1, k => if (k + 1) * (k + 1) ≤ n then isqrtGo n fuel (k + 1) else k

/-- Integer square root, executable by kernel reduction. -/
def isqrt (n : Nat) : Nat := isqrtGo n n 0

/-- `const calculateLevel = (xp) => Math.floor(Math.sqrt(xp / BASE_XP)) + 1`.
For non-negative integer `xp`, the floored real arithmetic equals the
integer square root of the integer quotient.  (For negative `xp` the
JavaScript expression is `NaN`; every use in the program is a `>= k`
comparison with `k ≥ 5`, which is false there, as it is for the value
`1` produced here.) -/
def calculateLevel (xp : Int) : Nat := isqrt (xp.toNat / BASE_XP) + 1

/-- `const xpForNextLevel = (level) => Math.pow(level, 2) * BASE_XP`. -/
def xpForNextLevel (level : Nat) : Int := ((level : Int)) ^ 2 * (BASE_XP : Int)

/-! ### Calendar dates (the host `Date` object, proleptic Gregorian) -/

/-- A civil calendar date; `month` and `day` are 1-based as displayed by
`getTodayString` (`getMonth() + 1`, `getDate()`). -/
structure CivilDate where
  year : Int
  month : Nat
  day : Nat
deriving DecidableEq

/-- Gregorian leap-year rule implemented by the host `Date`. -/
def isLeap (y : Int) : Bool := (y % 4 == 0 && y % 100 != 0) || y % 400 == 0

/-- Days in a month of the proleptic Gregorian calendar. -/
def daysInMonth (y : Int) (m : Nat) : Nat :=
  if m = 2 then (if isLeap y then 29 else 28)
  else if m = 4 ∨ m = 6 ∨ m = 9 ∨ m = 11 then 30
  else 31

/-- `d.setDate(d.getDate() - 1)`: step one calendar day backwards. -/
def prevDay (dt : CivilDate) : CivilDate :=
  if 1 < dt.day then ⟨dt.year, dt.month, dt.day - 1⟩
  else if 1 < dt.month then ⟨dt.year, dt.month - 1, daysInMonth dt.year (dt.month - 1)⟩
  else ⟨dt.year - 1, 12, 31⟩

/-- A date the host `Date` object can hold after normalisation. -/
def validDate (dt : CivilDate) : Prop :=
  1 ≤ dt.month ∧ dt.month ≤ 12 ∧ 1 ≤ dt.day ∧ dt.day ≤ daysInMonth dt.year dt.month

instance (dt : CivilDate) : Decidable (validDate dt) := by
  unfold validDate; infer_instance

/-- Chronological strict order on civil dates (lexicographic). -/
def dlt (a b : CivilDate) : Prop :=
  a.year < b.year ∨ (a.year = b.year ∧
    (a.month < b.month ∨ (a.month = b.month ∧ a.day < b.day)))

/-- Iterated backwards stepping: the date examined `n` days before `d`. -/
def iterPrev : Nat → CivilDate → CivilDate
  | 0, d => d
  | n + 1, d => iterPrev n (prevDay d)

/-! ### `YYYY-MM-DD` formatting (`getTodayString` and the streak loop) -/

/-- The decimal digit character for `n` (`0`–`9` for `n < 10`). -/
def digitChar (n : Nat) : Char := Char.ofNat (48 + n)

/-- Decimal digits of `n`, most significant first (fuel-driven). -/
def natDigits : Nat → Nat → List Nat
  | 0, _ => []
  | fuel + 1, n => if n < 10 then [n] else natDigits fuel (n / 10) ++ [n % 10]

/-- Decimal rendering of a natural number (JavaScript `String(n)`). -/
def natToStr (n : Nat) : String := ⟨(natDigits (n + 1) n).map digitChar⟩

/-- Decimal rendering of an integer (JavaScript `String(i)` on integers,
as produced by `getFullYear()`). -/
def intToStr (i : Int) : String :=
  if i < 0 then "-" ++ natToStr (-i).toNat else natToStr i.toNat

/-- `String(n).padStart(2, '0')`. -/
def pad2 (n : Nat) : String := if n < 10 then "0" ++ natToStr n else natToStr n

/-- The `YYYY-MM-DD` template string of `getTodayString` /
`updateStreak`. -/
def dateStr (dt : CivilDate) : String :=
  intToStr dt.year ++ "-" ++ pad2 dt.month ++ "-" ++ pad2 dt.day

/-- Value of a most-significant-first digit list. -/
def digitsVal (ds : List Nat) : Nat := ds.foldl (fun a d => 10 * a + d) 0

/-! ### Data model: quests, goals, achievements, the state snapshot -/

/-- Quest progress type: `'boolean'` or `'counter'`. -/
inductive QType where
  | boolean : QType
  | counter : QType
deriving DecidableEq

/-- A quest template or custom quest (`DAILY_QUESTS_TEMPLATE` entries,
`PITCH_QUEST`, custom quests).  `max` is meaningful for counters only;
boolean quests implicitly have maximum 1. -/
structure Quest where
  id : String
  title : String
  type : QType
  max : Int
  xpPer : Int
  icon : String
  desc : String
  custom : Bool
deriving DecidableEq

/-- A long-term goal (`addGoal` entries). -/
structure Goal where
  id : String
  title : String
  target : Int
  current : Int
deriving DecidableEq

/-- The canonical mutable state snapshot of `AppState`
(`getDefaultState` lists its fields). -/
structure AppState where
  xp : Int
  totalCompleted : Int
  goalsCompleted : Int
  lastDate : String
  dailies : List (String × Int)
  goals : List Goal
  customQuests : List Quest
  history : List (String × Int)
  unlockedAchievements : List String
  currentStreak : Nat
deriving DecidableEq

/-- `getDefaultState()`. -/
def getDefaultState : AppState :=
  { xp := 0, totalCompleted := 0, goalsCompleted := 0, lastDate := "",
    dailies := [], goals := [], customQuests := [], history := [],
    unlockedAchievements := [], currentStreak := 0 }

/-- An achievement definition: identifier, display data and a predicate
over the state snapshot. -/
structure Achievement where
  id : String
  name : String
  desc : String
  condition : AppState → Bool

/-- The fixed, ordered `ACHIEVEMENTS` list. -/
def ACHIEVEMENTS : List Achievement :=
  [ ⟨"first_quest", "Getting Started", "Complete your first quest",
      fun state => 1 ≤ state.totalCompleted⟩,
    ⟨"level_5", "Rising Developer", "Reach level 5",
      fun state => 5 ≤ calculateLevel state.xp⟩,
    ⟨"level_10", "Expert Coder", "Reach level 10",
      fun state => 10 ≤ calculateLevel state.xp⟩,
    ⟨"streak_7", "Week Warrior", "7 day streak",
      fun state => 7 ≤ state.currentStreak⟩,
    ⟨"streak_30", "Monthly Master", "30 day streak",
      fun state => 30 ≤ state.currentStreak⟩,
    ⟨"complete_10", "Quest Hunter", "Complete 10 quests",
      fun state => 10 ≤ state.totalCompleted⟩,
    ⟨"complete_50", "Quest Veteran", "Complete 50 quests",
      fun state => 50 ≤ state.totalCompleted⟩,
    ⟨"complete_100", "Quest Master", "Complete 100 quests",
      fun state => 100 ≤ state.totalCompleted⟩,
    ⟨"first_goal", "Goal Setter", "Complete your first long-term goal",
      fun state => 1 ≤ state.goalsCompleted⟩,
    ⟨"custom_quest", "Self Driven", "Create a custom quest",
      fun state => 0 < state.customQuests.length⟩ ]

/-! ### Achievement evaluation (`checkAchievements`) -/

/-- One `forEach` pass over the achievement list: unlock every
achievement whose condition holds and whose identifier is not yet in
`unlockedAchievements` (`push` appends at the end). -/
def chkGo : List Achievement → AppState → AppState
  | [], s => s
  | a :: rest, s =>
    chkGo rest
      (if a.condition s && !(s.unlockedAchievements.contains a.id) then
        { s with unlockedAchievements := s.unlockedAchievements ++ [a.id] }
      else s)

/-- `AppState.checkAchievements()` (the deferred popup notification is a
side channel and is not modelled). -/
def checkAchievements (st : AppState) : AppState := chkGo ACHIEVEMENTS st

/-! ### Streak recomputation (`updateStreak`) -/

/-- The body of `updateStreak`'s `while (true)` loop, with explicit
fuel: starting at date `d` with accumulator `count`, count days whose
history entry is strictly positive (`history[dateStr] &&
history[dateStr] > 0`), stepping backwards; on a non-positive day,
skip without counting when nothing has been counted yet and the date
string equals the one of today (`count === 0 && dateStr === getTodayString()`),
otherwise stop.  `none` means the fuel ran out before the loop
stopped. -/
def streakGo (h : List (String × Int)) (todayS : String) :
    Nat → CivilDate → Nat → Option Nat
  | 0, _, _ => none
  | fuel + 1, d, count =>
    if 0 < getVal h (dateStr d) then
      streakGo h todayS fuel (prevDay d) (count + 1)
    else if count = 0 ∧ dateStr d = todayS then
      streakGo h todayS fuel (prevDay d) count
    else
      some count

/-- The streak value computed by `updateStreak` starting from `today`
(`new Date()`).  Fuel `history.length + 2` is proved sufficient below
(`streakGo_eq_spec`). -/
def computeStreak (h : List (String × Int)) (today : CivilDate) : Nat :=
  (streakGo h (dateStr today) (h.length + 2) today 0).getD 0

/-- `AppState.updateStreak()`: recompute `currentStreak` from
`history`. -/
def updateStreak (st : AppState) (today : CivilDate) : AppState :=
  { st with currentStreak := computeStreak st.history today }

/-- Modelled from the spec (section "Streak Recomputation Algorithm"):
the number of consecutive days with positive history walking backward
from `d` (fuel-driven). -/
def specRun (h : List (String × Int)) : Nat → CivilDate → Nat
  | 0, _ => 0
  | fuel + 1, d =>
    if 0 < getVal h (dateStr d) then specRun h fuel (prevDay d) + 1 else 0

/-- Modelled from the spec: the streak walks backward from today,
counting consecutive positive days, except that a non-positive entry
for today itself is skipped once. -/
def specStreak (h : List (String × Int)) (today : CivilDate) : Nat :=
  if 0 < getVal h (dateStr today) then specRun h (h.length + 1) today
  else specRun h (h.length + 1) (prevDay today)

/-! ### Engine operations -/

/-- The `(newProgress, actualXpGain, completedInc)` triple computed by
the body of `updateDailyProgress` from the current progress
`currentProgress` of the quest. -/
def dailyDelta (currentProgress change xpGain : Int) (type : QType)
    (mx : Int) : Int × Int × Int :=
  match type with
  | .boolean =>
    let newProgress : Int := if change = 0 then 0 else 1
    if newProgress = 1 ∧ currentProgress = 0 then (newProgress, xpGain, 1)
    else if newProgress = 0 ∧ currentProgress = 1 then (newProgress, -xpGain, -1)
    else (newProgress, 0, 0)
  | .counter =>
    let newProgress := max 0 (min mx (currentProgress + change))
    let diff := newProgress - currentProgress
    (newProgress, diff * xpGain,
      if newProgress = mx ∧ currentProgress < mx then 1
      else if newProgress < mx ∧ currentProgress = mx then -1
      else 0)

/-- `AppState.updateDailyProgress(questId, change, xpGain, type, max)`.
`today` stands for the host clock (`getTodayString()`); for a boolean
quest the JavaScript caller passes a target boolean as `change`, whose
truthiness (`change ? 1 : 0`) is modelled by `change ≠ 0`.  After the
field updates the method runs `checkAchievements()` and then
`updateStreak()` (persistence and notifications are external). -/
def updateDailyProgress (st : AppState) (today : CivilDate) (questId : String)
    (change : Int) (xpGain : Int) (type : QType) (mx : Int) : AppState :=
  let todayS := dateStr today
  let res := dailyDelta (getVal st.dailies questId) change xpGain type mx
  let st' : AppState :=
    { st with
      xp := max 0 (st.xp + res.2.1),
      totalCompleted := max 0 (st.totalCompleted + res.2.2),
      dailies := setVal st.dailies questId res.1,
      history := setVal st.history todayS
        (max 0 (getVal st.history todayS + res.2.2)) }
  updateStreak (checkAchievements st') today

/-- `AppState.addGoal(title, target)`; the `Date.now()`-generated
identifier is passed in as `newId`. -/
def addGoal (st : AppState) (title : String) (target : Int)
    (newId : String) : AppState :=
  { st with goals := st.goals ++ [Goal.mk newId title target 0] }

/-- Replace the first goal whose identifier matches (the `findIndex`
slot assigned by `updateGoal`). -/
def setGoal : List Goal → String → Goal → List Goal
  | [], _, _ => []
  | g :: gs, id, g' => if g.id == id then g' :: gs else g :: setGoal gs id g'

/-- `AppState.updateGoal(id, change)`. -/
def updateGoal (st : AppState) (id : String) (change : Int) : AppState :=
  match st.goals.find? (fun g => g.id == id) with
  | none => st
  | some goal =>
    let newCurrent := max 0 (min goal.target (goal.current + change))
    let completedNow := newCurrent = goal.target ∧ goal.current < goal.target
    let st' : AppState :=
      { st with
        goals := setGoal st.goals id { goal with current := newCurrent },
        xp := if completedNow then st.xp + 200 else st.xp,
        goalsCompleted :=
          if completedNow then st.goalsCompleted + 1 else st.goalsCompleted }
    checkAchievements st'

/-- `AppState.deleteGoal(id)`. -/
def deleteGoal (st : AppState) (id : String) : AppState :=
  { st with goals := st.goals.filter (fun g => !(g.id == id)) }

/-- `AppState.addCustomQuest(quest)`; the generated identifier is
passed in as `newId`. -/
def addCustomQuest (st : AppState) (quest : Quest) (newId : String) : AppState :=
  checkAchievements
    { st with customQuests := st.customQuests ++ [{ quest with id := newId }] }

/-- `AppState.deleteCustomQuest(id)`. -/
def deleteCustomQuest (st : AppState) (id : String) : AppState :=
  { st with customQuests := st.customQuests.filter (fun q => !(q.id == id)) }

/-- The daily-rollover portion of `AppState.init()` (storage loading is
external): when `lastDate` differs from today, reset `lastDate` and
`dailies`, create a zero history entry for today when the existing one
is absent or falsy, and recompute the streak. -/
def init (st : AppState) (today : CivilDate) : AppState :=
  let todayS := dateStr today
  if st.lastDate = todayS then st
  else
    updateStreak
      { st with
        lastDate := todayS,
        dailies := [],
        history :=
          if getVal st.history todayS = 0 then setVal st.history todayS 0
          else st.history } today

/-! ### Frame predicates over the state snapshot -/

/-- Equality of all state fields except `unlockedAchievements`. -/
def FrameEq (t s : AppState) : Prop :=
  t.xp = s.xp ∧ t.totalCompleted = s.totalCompleted ∧
  t.goalsCompleted = s.goalsCompleted ∧ t.lastDate = s.lastDate ∧
  t.dailies = s.dailies ∧ t.goals = s.goals ∧
  t.customQuests = s.customQuests ∧ t.history = s.history ∧
  t.currentStreak = s.currentStreak

/-- An achievement predicate that does not read `unlockedAchievements`
(true of every entry of `ACHIEVEMENTS`). -/
def condIndep (a : Achievement) : Prop :=
  ∀ s u, a.condition { s with unlockedAchievements := u } = a.condition s

/-! ### The positive-run predicate -/

/-- The first `k` days walking backward from `d` all have strictly
positive history entries. -/
def RunPos (h : List (String × Int)) (d : CivilDate) (k : Nat) : Prop :=
  ∀ i < k, 0 < getVal h (dateStr (iterPrev i d))

def rolloverExampleState : AppState :=
  { getDefaultState with
    lastDate := "2024-01-02",
    dailies := [("commit", 1)],
    history := [("2024-01-02", 3)] }

/-- The goal state of the specification's goal-completion example. -/
def goalExampleState : AppState :=
  { getDefaultState with goals := [Goal.mk "g1" "Launch portfolio" 10 0] }

/-- A state with a counter quest already at its maximum but with
`totalCompleted = 0` and no history for the day. -/
def counterEdgeState : AppState :=
  { getDefaultState with dailies := [("leetcode", 5)] }

/-- The state invariant of the data model: non-negative xp and
counters, non-negative history entries, goal progress within
`[0, target]`. -/
def StateInv (st : AppState) : Prop :=
  0 ≤ st.xp ∧ 0 ≤ st.totalCompleted
  ∧ (∀ p ∈ st.history, 0 ≤ p.2)
  ∧ (∀ g ∈ st.goals, 0 ≤ g.current ∧ g.current ≤ g.target)

instance (st : AppState) : Decidable (StateInv st) := by
  unfold StateInv; infer_instance

/-! ## Theorems -/

theorem getVal?_setVal_self (l : List (String × Int)) (k : String) (v : Int) :
    getVal? (setVal l k v) k = some v := by
  induction l with
  | nil =>
    simp [setVal, getVal?, List.find?_cons_of_pos]
  | cons p ps ih =>
    by_cases h : p.1 = k
    · simp [setVal, h, getVal?, List.find?_cons_of_pos]
    · simp only [setVal, beq_iff_eq, h, if_false]
      unfold getVal? at ih ⊢
      rw [List.find?_cons_of_neg _ (by simpa using h)]
      exact ih

theorem getVal_setVal_self (l : List (String × Int)) (k : String) (v : Int) :
    getVal (setVal l k v) k = v := by
  simp [getVal, getVal?_setVal_self]

theorem getVal?_setVal_ne (l : List (String × Int)) (k k' : String) (v : Int)
    (h : k' ≠ k) : getVal? (setVal l k v) k' = getVal? l k' := by
  induction l with
  | nil =>
    simp [setVal, getVal?, List.find?_cons_of_neg, Ne.symm h]
  | cons p ps ih =>
    by_cases hp : p.1 = k
    · unfold getVal?
      simp only [setVal, beq_iff_eq, hp, if_true]
      rw [List.find?_cons_of_neg _ (by simpa using Ne.symm h),
        List.find?_cons_of_neg _ (by simp [hp]; exact Ne.symm h)]
    · by_cases hp' : p.1 = k'
      · unfold getVal?
        simp only [setVal, beq_iff_eq, hp, if_false]
        rw [List.find?_cons_of_pos _ (by simpa using hp'),
          List.find?_cons_of_pos _ (by simpa using hp')]
      · unfold getVal? at ih ⊢
        simp only [setVal, beq_iff_eq, hp, if_false]
        rw [List.find?_cons_of_neg _ (by simpa using hp'),
          List.find?_cons_of_neg _ (by simpa using hp')]
        exact ih

theorem getVal_setVal_ne (l : List (String × Int)) (k k' : String) (v : Int)
    (h : k' ≠ k) : getVal (setVal l k v) k' = getVal l k' := by
  simp [getVal, getVal?_setVal_ne l k k' v h]

theorem setVal_forall (l : List (String × Int)) (k : String) (v : Int)
    (P : Int → Prop) (hl : ∀ p ∈ l, P p.2) (hv : P v) :
    ∀ p ∈ setVal l k v, P p.2 := by
  induction l with
  | nil => simpa [setVal]
  | cons q qs ih =>
    by_cases h : q.1 = k
    · simp only [setVal, beq_iff_eq, h, if_true]
      intro p hp
      rcases List.mem_cons.mp hp with rfl | hmem
      · exact hv
      · exact hl p (List.mem_cons_of_mem _ hmem)
    · simp only [setVal, beq_iff_eq, h, if_false]
      intro p hp
      rcases List.mem_cons.mp hp with rfl | hmem
      · exact hl p (List.mem_cons_self _ _)
      · exact ih (fun q hq => hl q (List.mem_cons_of_mem _ hq)) p hmem

/-- A positive lookup means the key is bound in the map. -/
theorem mem_keys_of_getVal_pos (l : List (String × Int)) (k : String)
    (h : 0 < getVal l k) : k ∈ l.map Prod.fst := by
  unfold getVal getVal? at h
  cases hf : l.find? (fun p => p.1 == k) with
  | none => rw [hf] at h; simp at h
  | some p =>
    have hmem := List.mem_of_find?_eq_some hf
    have hpk : p.1 = k := by
      have := List.find?_some hf
      simpa using this
    exact hpk ▸ List.mem_map.mpr ⟨p, hmem, rfl⟩

theorem isqrtGo_eq_sqrt (n : Nat) :
    ∀ fuel k, k * k ≤ n → (∀ j, j * j ≤ n → j ≤ k + fuel) →
      isqrtGo n fuel k = Nat.sqrt n := by
  intro fuel
  induction fuel with
  | zero =>
    intro k hk hbound
    have h1 : ¬ (k + 1) * (k + 1) ≤ n := by
      intro hc
      have := hbound (k + 1) hc
      omega
    have hle : k ≤ Nat.sqrt n := Nat.le_sqrt.mpr hk
    have hlt : Nat.sqrt n < k + 1 := Nat.sqrt_lt.mpr (by omega)
    simp [isqrtGo]
    omega
  | succ fuel ih =>
    intro k hk hbound
    by_cases h : (k + 1) * (k + 1) ≤ n
    · simp only [isqrtGo, h, if_true]
      exact ih (k + 1) h (fun j hj => by have := hbound j hj; omega)
    · simp only [isqrtGo, h, if_false]
      have hle : k ≤ Nat.sqrt n := Nat.le_sqrt.mpr hk
      have hlt : Nat.sqrt n < k + 1 := Nat.sqrt_lt.mpr (by omega)
      omega

theorem isqrt_eq_sqrt (n : Nat) : isqrt n = Nat.sqrt n := by
  refine isqrtGo_eq_sqrt n n 0 (by omega) ?_
  intro j hj
  rcases Nat.eq_zero_or_pos j with rfl | hpos
  · omega
  · have : j ≤ j * j := Nat.le_mul_of_pos_left j hpos
    omega

theorem calculateLevel_pos (xp : Int) : 1 ≤ calculateLevel xp := by
  unfold calculateLevel; omega

theorem calculateLevel_mono {x y : Int} (h : x ≤ y) :
    calculateLevel x ≤ calculateLevel y := by
  unfold calculateLevel
  have h1 : x.toNat ≤ y.toNat := Int.toNat_le_toNat h
  have h2 : x.toNat / BASE_XP ≤ y.toNat / BASE_XP := Nat.div_le_div_right h1
  have := Nat.sqrt_le_sqrt h2
  rw [isqrt_eq_sqrt, isqrt_eq_sqrt]
  omega

/-- `calculateLevel xp ≥ 5` exactly when `xp ≥ 1600 = xpForNextLevel 4`. -/
theorem calculateLevel_ge_five_iff (xp : Int) :
    5 ≤ calculateLevel xp ↔ xpForNextLevel 4 ≤ xp := by
  unfold calculateLevel xpForNextLevel BASE_XP
  rw [isqrt_eq_sqrt]
  constructor
  · intro h
    have h4 : 4 ≤ Nat.sqrt (xp.toNat / 100) := by omega
    have : 16 ≤ xp.toNat / 100 := by
      have := Nat.le_sqrt.mp h4
      omega
    have : 1600 ≤ xp.toNat := by omega
    norm_num
    omega
  · intro h
    have hx : (1600 : Int) ≤ xp := by norm_num at h; omega
    have h1 : 1600 ≤ xp.toNat := by omega
    have h2 : 16 ≤ xp.toNat / 100 := by omega
    have : 4 ≤ Nat.sqrt (xp.toNat / 100) := Nat.le_sqrt.mpr (by omega)
    omega

theorem dlt_trans {a b c : CivilDate} (h1 : dlt a b) (h2 : dlt b c) : dlt a c := by
  unfold dlt at *
  rcases h1 with h1 | ⟨e1, h1⟩ <;> rcases h2 with h2 | ⟨e2, h2⟩
  · left; omega
  · left; omega
  · left; omega
  · right
    refine ⟨by omega, ?_⟩
    rcases h1 with h1 | ⟨f1, h1⟩ <;> rcases h2 with h2 | ⟨f2, h2⟩
    · left; omega
    · left; omega
    · left; omega
    · right; exact ⟨by omega, by omega⟩

theorem dlt_irrefl (a : CivilDate) : ¬ dlt a a := by
  unfold dlt; omega

theorem daysInMonth_pos (y : Int) (m : Nat) : 1 ≤ daysInMonth y m := by
  unfold daysInMonth
  split_ifs <;> omega

theorem daysInMonth_le (y : Int) (m : Nat) : daysInMonth y m ≤ 31 := by
  unfold daysInMonth
  split_ifs <;> omega

theorem prevDay_valid {dt : CivilDate} (h : validDate dt) : validDate (prevDay dt) := by
  obtain ⟨h1, h2, h3, h4⟩ := h
  have h31 : daysInMonth (dt.year - 1) 12 = 31 := by
    unfold daysInMonth; norm_num
  unfold prevDay validDate
  split_ifs with hd hm <;> dsimp only
  · exact ⟨h1, h2, by omega, by omega⟩
  · exact ⟨by omega, by omega, daysInMonth_pos _ _, le_refl _⟩
  · exact ⟨by omega, by omega, by omega, by omega⟩

theorem prevDay_dlt {dt : CivilDate} (h : validDate dt) : dlt (prevDay dt) dt := by
  obtain ⟨h1, h2, h3, h4⟩ := h
  unfold prevDay dlt
  split_ifs with hd hm <;> dsimp only
  · exact Or.inr ⟨rfl, Or.inr ⟨rfl, by omega⟩⟩
  · exact Or.inr ⟨rfl, Or.inl (by omega)⟩
  · exact Or.inl (by omega)

theorem iterPrev_valid {d : CivilDate} (h : validDate d) :
    ∀ n, validDate (iterPrev n d) := by
  intro n
  induction n generalizing d with
  | zero => exact h
  | succ n ih => exact ih (prevDay_valid h)

theorem iterPrev_add (a b : Nat) (d : CivilDate) :
    iterPrev (a + b) d = iterPrev a (iterPrev b d) := by
  induction b generalizing d with
  | zero => rfl
  | succ b ih =>
    have : a + (b + 1) = (a + b) + 1 := by omega
    rw [this]
    show iterPrev (a + b) (prevDay d) = iterPrev a (iterPrev b (prevDay d))
    exact ih (prevDay d)

theorem iterPrev_dlt {d : CivilDate} (h : validDate d) :
    ∀ n, dlt (iterPrev (n + 1) d) d := by
  intro n
  induction n generalizing d with
  | zero => exact prevDay_dlt h
  | succ n ih =>
    have h' : validDate (prevDay d) := prevDay_valid h
    exact dlt_trans (ih h') (prevDay_dlt h)

theorem iterPrev_inj {d : CivilDate} (h : validDate d) {i j : Nat}
    (heq : iterPrev i d = iterPrev j d) : i = j := by
  rcases Nat.lt_trichotomy i j with hlt | heqn | hgt
  · exfalso
    obtain ⟨k, rfl⟩ : ∃ k, j = (k + 1) + i := ⟨j - i - 1, by omega⟩
    rw [iterPrev_add] at heq
    have hd := iterPrev_dlt (iterPrev_valid h i) k
    rw [← heq] at hd
    exact dlt_irrefl _ hd
  · exact heqn
  · exfalso
    obtain ⟨k, rfl⟩ : ∃ k, i = (k + 1) + j := ⟨i - j - 1, by omega⟩
    rw [iterPrev_add] at heq
    have hd := iterPrev_dlt (iterPrev_valid h j) k
    rw [heq] at hd
    exact dlt_irrefl _ hd

theorem digitsVal_append (ds : List Nat) (d : Nat) :
    digitsVal (ds ++ [d]) = 10 * digitsVal ds + d := by
  unfold digitsVal
  rw [List.foldl_append]
  rfl

theorem natDigits_val (n : Nat) :
    ∀ fuel, n ≤ fuel → digitsVal (natDigits (fuel + 1) n) = n := by
  induction n using Nat.strong_induction_on with
  | _ n ih =>
    intro fuel hn
    by_cases h : n < 10
    · simp [natDigits, h, digitsVal]
    · simp only [natDigits, h, if_false]
      obtain ⟨f, rfl⟩ : ∃ f, fuel = f + 1 := ⟨fuel - 1, by omega⟩
      rw [digitsVal_append, ih (n / 10) (by omega) f (by omega)]
      omega

theorem natDigits_lt : ∀ fuel n, ∀ d ∈ natDigits fuel n, d < 10 := by
  intro fuel
  induction fuel with
  | zero => intro n d hd; simp [natDigits] at hd
  | succ fuel ih =>
    intro n d hd
    by_cases h : n < 10
    · simp [natDigits, h] at hd
      omega
    · simp only [natDigits, h, if_false, List.mem_append] at hd
      rcases hd with hd | hd
      · exact ih (n / 10) d hd
      · simp at hd
        omega

theorem natDigits_ne_nil (fuel n : Nat) : natDigits (fuel + 1) n ≠ [] := by
  by_cases h : n < 10 <;> simp [natDigits, h]

theorem digitChar_inj : ∀ a < 10, ∀ b < 10, digitChar a = digitChar b → a = b := by
  decide

theorem digitChar_ne_dash : ∀ d < 10, digitChar d ≠ '-' := by decide

theorem map_digitChar_inj :
    ∀ ds1 ds2 : List Nat, (∀ d ∈ ds1, d < 10) → (∀ d ∈ ds2, d < 10) →
      ds1.map digitChar = ds2.map digitChar → ds1 = ds2 := by
  intro ds1
  induction ds1 with
  | nil =>
    intro ds2 _ _ h
    cases ds2 with
    | nil => rfl
    | cons b t => simp at h
  | cons a t ih =>
    intro ds2 h1 h2 h
    cases ds2 with
    | nil => simp at h
    | cons b t2 =>
      simp only [List.map_cons, List.cons.injEq] at h
      have hab : a = b :=
        digitChar_inj a (h1 a (List.mem_cons_self _ _)) b
          (h2 b (List.mem_cons_self _ _)) h.1
      have ht : t = t2 :=
        ih t2 (fun d hd => h1 d (List.mem_cons_of_mem _ hd))
          (fun d hd => h2 d (List.mem_cons_of_mem _ hd)) h.2
      rw [hab, ht]

theorem natToStr_inj {a b : Nat} (h : natToStr a = natToStr b) : a = b := by
  have hdata : (natDigits (a + 1) a).map digitChar
      = (natDigits (b + 1) b).map digitChar := congrArg String.data h
  have hdig : natDigits (a + 1) a = natDigits (b + 1) b :=
    map_digitChar_inj _ _ (natDigits_lt _ _) (natDigits_lt _ _) hdata
  have hv := natDigits_val a a (le_refl a)
  rw [hdig, natDigits_val b b (le_refl b)] at hv
  omega

theorem natToStr_data_head (n : Nat) :
    ∃ d rest, d < 10 ∧ (natToStr n).data = digitChar d :: rest := by
  cases hd : natDigits (n + 1) n with
  | nil => exact absurd hd (natDigits_ne_nil n n)
  | cons d rest =>
    refine ⟨d, rest.map digitChar, ?_, ?_⟩
    · exact natDigits_lt _ _ d (hd ▸ List.mem_cons_self _ _)
    · show ((natDigits (n + 1) n).map digitChar) = _
      rw [hd]
      rfl

theorem intToStr_inj {i j : Int} (h : intToStr i = intToStr j) : i = j := by
  unfold intToStr at h
  by_cases hi : i < 0 <;> by_cases hj : j < 0
  · rw [if_pos hi, if_pos hj] at h
    have hdata := congrArg String.data h
    simp only [String.data_append] at hdata
    have hjoin : (natToStr (-i).toNat).data = (natToStr (-j).toNat).data := by
      simpa using hdata
    have := natToStr_inj (String.ext hjoin)
    omega
  · rw [if_pos hi, if_neg hj] at h
    exfalso
    obtain ⟨d, rest, hd10, hhead⟩ := natToStr_data_head j.toNat
    have hdata := congrArg String.data h
    simp only [String.data_append] at hdata
    rw [hhead] at hdata
    simp only [List.cons_append, List.nil_append, List.cons.injEq] at hdata
    exact digitChar_ne_dash d hd10 hdata.1.symm
  · rw [if_neg hi, if_pos hj] at h
    exfalso
    obtain ⟨d, rest, hd10, hhead⟩ := natToStr_data_head i.toNat
    have hdata := congrArg String.data h
    simp only [String.data_append] at hdata
    rw [hhead] at hdata
    simp only [List.cons_append, List.nil_append, List.cons.injEq] at hdata
    exact digitChar_ne_dash d hd10 hdata.1
  · rw [if_neg hi, if_neg hj] at h
    have := natToStr_inj h
    omega

theorem pad2_len : ∀ n < 32, (pad2 n).data.length = 2 := by decide

theorem pad2_inj : ∀ a < 32, ∀ b < 32, pad2 a = pad2 b → a = b := by decide

/-- `YYYY-MM-DD` rendering is injective on valid dates, so distinct days
always produce distinct history keys. -/
theorem dateStr_inj {a b : CivilDate} (ha : validDate a) (hb : validDate b)
    (h : dateStr a = dateStr b) : a = b := by
  obtain ⟨ham1, ham2, had1, had2⟩ := ha
  obtain ⟨hbm1, hbm2, hbd1, hbd2⟩ := hb
  have ham : a.month < 32 := by omega
  have hbm : b.month < 32 := by omega
  have had : a.day < 32 := by
    have := daysInMonth_le a.year a.month
    omega
  have hbd : b.day < 32 := by
    have := daysInMonth_le b.year b.month
    omega
  have hdata := congrArg String.data h
  simp only [dateStr, String.data_append] at hdata
  -- regroup as  year ++ (6-character suffix)
  have hre : ∀ y pm pd : List Char, pm.length = 2 → pd.length = 2 →
      ∀ y' pm' pd' : List Char, pm'.length = 2 → pd'.length = 2 →
      y ++ ['-'] ++ pm ++ ['-'] ++ pd = y' ++ ['-'] ++ pm' ++ ['-'] ++ pd' →
      y = y' ∧ pm = pm' ∧ pd = pd' := by
    intro y pm pd hpm hpd y' pm' pd' hpm' hpd' heq
    have heq2 : y ++ (['-'] ++ pm ++ ['-'] ++ pd)
        = y' ++ (['-'] ++ pm' ++ ['-'] ++ pd') := by
      simpa [List.append_assoc] using heq
    have hlen : (['-'] ++ pm ++ ['-'] ++ pd).length
        = (['-'] ++ pm' ++ ['-'] ++ pd').length := by
      simp [hpm, hpd, hpm', hpd']
    obtain ⟨hy, hrest⟩ := List.append_inj' heq2 hlen
    have hrest2 : pm ++ (['-'] ++ pd) = pm' ++ (['-'] ++ pd') := by
      have := hrest
      simp only [List.append_assoc, List.cons_append, List.nil_append,
        List.cons.injEq, true_and] at this
      simpa [List.append_assoc] using this
    obtain ⟨hm, hdrest⟩ := List.append_inj hrest2 (by rw [hpm, hpm'])
    have hd : pd = pd' := by
      simpa using hdrest
    exact ⟨hy, hm, hd⟩
  have hmain := hre (intToStr a.year).data (pad2 a.month).data (pad2 a.day).data
    (pad2_len a.month ham) (pad2_len a.day had)
    (intToStr b.year).data (pad2 b.month).data (pad2 b.day).data
    (pad2_len b.month hbm) (pad2_len b.day hbd) hdata
  obtain ⟨hy, hm, hd⟩ := hmain
  have hyear : a.year = b.year := intToStr_inj (String.ext hy)
  have hmonth : a.month = b.month :=
    pad2_inj a.month ham b.month hbm (String.ext hm)
  have hday : a.day = b.day :=
    pad2_inj a.day had b.day hbd (String.ext hd)
  cases a; cases b
  simp_all

theorem frameEq_refl (s : AppState) : FrameEq s s := by
  unfold FrameEq
  exact ⟨rfl, rfl, rfl, rfl, rfl, rfl, rfl, rfl, rfl⟩

theorem frameEq_trans {a b c : AppState} (h1 : FrameEq a b) (h2 : FrameEq b c) :
    FrameEq a c := by
  unfold FrameEq at *
  simp_all

theorem frameEq_to_eq {t s : AppState} (h : FrameEq t s) :
    t = { s with unlockedAchievements := t.unlockedAchievements } := by
  obtain ⟨h1, h2, h3, h4, h5, h6, h7, h8, h9⟩ := h
  cases t
  cases s
  simp_all

/-- `checkAchievements` only touches `unlockedAchievements`. -/
theorem chkGo_frame : ∀ (l : List Achievement) (s : AppState),
    FrameEq (chkGo l s) s := by
  intro l
  induction l with
  | nil => intro s; exact frameEq_refl s
  | cons a t ih =>
    intro s
    show FrameEq (chkGo t _) s
    by_cases hc : (a.condition s && !(s.unlockedAchievements.contains a.id)) = true
    · rw [if_pos hc]
      exact frameEq_trans (ih _) (frameEq_refl s)
    · rw [if_neg hc]
      exact ih s

theorem contains_single (x y : String) : ([x].contains y) = (y == x) := by
  cases h : y == x <;> simp [List.contains, List.elem, h]

theorem contains_append_single (l : List String) (x y : String) :
    ((l ++ [x]).contains y) = (l.contains y || (y == x)) := by
  have h1 : ((l ++ [x]).contains y) = (l.contains y || ([x].contains y)) := by
    simp [List.contains]
  rw [h1, contains_single]

theorem condIndep_invariant {a : Achievement} (ha : condIndep a)
    {t s : AppState} (h : FrameEq t s) : a.condition t = a.condition s := by
  rw [frameEq_to_eq h, ha]

/-- Characterisation of one evaluation pass: it appends, in list order,
exactly the identifiers of achievements whose condition holds of the
incoming state and which are not already unlocked. -/
theorem chkGo_unlocked : ∀ (l : List Achievement) (s : AppState),
    (∀ a ∈ l, condIndep a) → ((l.map Achievement.id).Nodup) →
    (chkGo l s).unlockedAchievements
      = s.unlockedAchievements
        ++ (l.filter (fun a =>
              a.condition s && !(s.unlockedAchievements.contains a.id))).map
            Achievement.id := by
  intro l
  induction l with
  | nil => intro s _ _; simp [chkGo]
  | cons a t ih =>
    intro s hind hnd
    have hndt : (t.map Achievement.id).Nodup := by
      simp only [List.map_cons, List.nodup_cons] at hnd
      exact hnd.2
    have hna : a.id ∉ t.map Achievement.id := by
      simp only [List.map_cons, List.nodup_cons] at hnd
      exact hnd.1
    show (chkGo t _).unlockedAchievements = _
    by_cases hc : (a.condition s && !(s.unlockedAchievements.contains a.id)) = true
    · rw [if_pos hc]
      set s1 : AppState :=
        { s with unlockedAchievements := s.unlockedAchievements ++ [a.id] } with hs1
      rw [ih s1 (fun b hb => hind b (List.mem_cons_of_mem _ hb)) hndt]
      have hfilter :
          t.filter (fun b => b.condition s1 && !(s1.unlockedAchievements.contains b.id))
            = t.filter (fun b => b.condition s && !(s.unlockedAchievements.contains b.id)) := by
        apply List.filter_congr
        intro b hb
        have hcond : b.condition s1 = b.condition s :=
          hind b (List.mem_cons_of_mem _ hb) s _
        have hbid : (b.id == a.id) = false := by
          rw [beq_eq_false_iff_ne]
          intro heq
          exact hna (heq ▸ List.mem_map.mpr ⟨b, hb, rfl⟩)
        have hcont : s1.unlockedAchievements.contains b.id
            = s.unlockedAchievements.contains b.id := by
          show (s.unlockedAchievements ++ [a.id]).contains b.id = _
          rw [contains_append_single, hbid]
          simp
        rw [hcond, hcont]
      rw [hfilter]
      have hfa : (a.condition s && !(s.unlockedAchievements.contains a.id)) = true := hc
      have hsplit :
          List.filter (fun b =>
              b.condition s && !(s.unlockedAchievements.contains b.id)) (a :: t)
            = a :: List.filter (fun b =>
                b.condition s && !(s.unlockedAchievements.contains b.id)) t :=
        List.filter_cons_of_pos hfa
      rw [hsplit]
      simp [hs1]
    · rw [if_neg hc]
      rw [ih s (fun b hb => hind b (List.mem_cons_of_mem _ hb)) hndt]
      have hsplit :
          List.filter (fun b =>
              b.condition s && !(s.unlockedAchievements.contains b.id)) (a :: t)
            = List.filter (fun b =>
                b.condition s && !(s.unlockedAchievements.contains b.id)) t :=
        List.filter_cons_of_neg (by simpa using hc)
      rw [hsplit]

theorem achievements_indep : ∀ a ∈ ACHIEVEMENTS, condIndep a := by
  intro a ha
  fin_cases ha <;> exact fun s u => rfl

theorem achievements_ids_nodup : (ACHIEVEMENTS.map Achievement.id).Nodup := by
  decide

/-- `checkAchievements` appends exactly the newly satisfied, not yet
unlocked identifiers, in evaluation order. -/
theorem checkAchievements_unlocked (s : AppState) :
    (checkAchievements s).unlockedAchievements
      = s.unlockedAchievements
        ++ (ACHIEVEMENTS.filter (fun a =>
              a.condition s && !(s.unlockedAchievements.contains a.id))).map
            Achievement.id :=
  chkGo_unlocked ACHIEVEMENTS s achievements_indep achievements_ids_nodup

theorem checkAchievements_frame (s : AppState) :
    FrameEq (checkAchievements s) s := chkGo_frame ACHIEVEMENTS s

/-- Re-evaluating on the result of an evaluation unlocks nothing new. -/
theorem checkAchievements_idem (s : AppState) :
    (checkAchievements (checkAchievements s)).unlockedAchievements
      = (checkAchievements s).unlockedAchievements := by
  rw [checkAchievements_unlocked (checkAchievements s)]
  have hempty : ACHIEVEMENTS.filter (fun a =>
      a.condition (checkAchievements s)
        && !((checkAchievements s).unlockedAchievements.contains a.id)) = [] := by
    rw [List.filter_eq_nil_iff]
    intro a ha hpred
    rw [Bool.and_eq_true] at hpred
    have hcond : a.condition s = true := by
      rw [← condIndep_invariant (achievements_indep a ha) (checkAchievements_frame s)]
      exact hpred.1
    have hmem : a.id ∈ (checkAchievements s).unlockedAchievements := by
      rw [checkAchievements_unlocked s]
      by_cases hin : a.id ∈ s.unlockedAchievements
      · exact List.mem_append_left _ hin
      · refine List.mem_append_right _ (List.mem_map.mpr ⟨a, ?_, rfl⟩)
        refine List.mem_filter.mpr ⟨ha, ?_⟩
        rw [Bool.and_eq_true, hcond]
        refine ⟨rfl, ?_⟩
        simp only [Bool.not_eq_true']
        rw [← Bool.not_eq_true]
        intro hcont
        exact hin (by simpa [List.contains, List.elem_iff] using hcont)
    have : (checkAchievements s).unlockedAchievements.contains a.id = true := by
      simpa [List.contains, List.elem_iff] using hmem
    rw [this] at hpred
    simp at hpred
  rw [hempty]
  simp

/-- Consecutive positive days correspond to distinct history keys, so a
positive run is no longer than the history itself. -/
theorem runPos_le_length {h : List (String × Int)} {d : CivilDate}
    (hv : validDate d) {k : Nat} (hrun : RunPos h d k) : k ≤ h.length := by
  have hnodup : ((List.range k).map (fun i => dateStr (iterPrev i d))).Nodup := by
    refine List.Nodup.map_on ?_ (List.nodup_range k)
    intro x _ y _ hxy
    exact iterPrev_inj hv
      (dateStr_inj (iterPrev_valid hv x) (iterPrev_valid hv y) hxy)
  have hsub : ((List.range k).map (fun i => dateStr (iterPrev i d)))
      ⊆ h.map Prod.fst := by
    intro s hs
    obtain ⟨i, hi, rfl⟩ := List.mem_map.mp hs
    exact mem_keys_of_getVal_pos h _ (hrun i (List.mem_range.mp hi))
  have := (hnodup.subperm hsub).length_le
  simpa using this

/-- Walking backward from a valid date, the loop's break condition is
reached within `h.length` steps. -/
theorem exists_break (h : List (String × Int)) {d : CivilDate}
    (hv : validDate d) :
    ∃ k, k ≤ h.length ∧ RunPos h d k ∧
      ¬ 0 < getVal h (dateStr (iterPrev k d)) := by
  have hex : ∃ j, ¬ 0 < getVal h (dateStr (iterPrev j d)) := by
    by_contra hall
    push_neg at hall
    have hrun : RunPos h d (h.length + 1) := fun i _ => hall i
    have := runPos_le_length hv hrun
    omega
  refine ⟨Nat.find hex, ?_, ?_, Nat.find_spec hex⟩
  · refine runPos_le_length hv ?_
    intro i hi
    have := Nat.find_min hex hi
    omega
  · intro i hi
    have := Nat.find_min hex hi
    omega

/-- `specRun` computes the exact length of the maximal positive run. -/
theorem specRun_eq_of_break (h : List (String × Int)) :
    ∀ k d fuel, RunPos h d k →
      ¬ 0 < getVal h (dateStr (iterPrev k d)) → k < fuel →
      specRun h fuel d = k := by
  intro k
  induction k with
  | zero =>
    intro d fuel hrun hbreak hlt
    obtain ⟨f, rfl⟩ : ∃ f, fuel = f + 1 := ⟨fuel - 1, by omega⟩
    have hnot : ¬ 0 < getVal h (dateStr d) := hbreak
    simp only [specRun]
    rw [if_neg hnot]
  | succ k ih =>
    intro d fuel hrun hbreak hlt
    obtain ⟨f, rfl⟩ : ∃ f, fuel = f + 1 := ⟨fuel - 1, by omega⟩
    have hpos : 0 < getVal h (dateStr d) := hrun 0 (by omega)
    simp only [specRun]
    rw [if_pos hpos]
    have hrun' : RunPos h (prevDay d) k := fun i hi => hrun (i + 1) (by omega)
    have hbreak' : ¬ 0 < getVal h (dateStr (iterPrev k (prevDay d))) := hbreak
    rw [ih (prevDay d) f hrun' hbreak' (by omega)]

/-- Once the accumulator is positive the loop is a pure run count: it
stops at the first non-positive day and returns the total. -/
theorem streakGo_count (h : List (String × Int)) (todayS : String) :
    ∀ k d count fuel, count ≠ 0 → RunPos h d k →
      ¬ 0 < getVal h (dateStr (iterPrev k d)) → k < fuel →
      streakGo h todayS fuel d count = some (count + k) := by
  intro k
  induction k with
  | zero =>
    intro d count fuel hcount hrun hbreak hlt
    obtain ⟨f, rfl⟩ : ∃ f, fuel = f + 1 := ⟨fuel - 1, by omega⟩
    have hnot : ¬ 0 < getVal h (dateStr d) := hbreak
    simp only [streakGo]
    rw [if_neg hnot, if_neg (by intro hand; exact hcount hand.1)]
    simp
  | succ k ih =>
    intro d count fuel hcount hrun hbreak hlt
    obtain ⟨f, rfl⟩ : ∃ f, fuel = f + 1 := ⟨fuel - 1, by omega⟩
    have hpos : 0 < getVal h (dateStr d) := hrun 0 (by omega)
    simp only [streakGo]
    rw [if_pos hpos]
    have hrun' : RunPos h (prevDay d) k := fun i hi => hrun (i + 1) (by omega)
    have hbreak' : ¬ 0 < getVal h (dateStr (iterPrev k (prevDay d))) := hbreak
    rw [ih (prevDay d) (count + 1) f (by omega) hrun' hbreak' (by omega)]
    have : count + 1 + k = count + (k + 1) := by omega
    rw [this]

/-- One unfolding step of the loop body. -/
theorem streakGo_succ (h : List (String × Int)) (todayS : String)
    (fuel : Nat) (d : CivilDate) (count : Nat) :
    streakGo h todayS (fuel + 1) d count
      = if 0 < getVal h (dateStr d) then
          streakGo h todayS fuel (prevDay d) (count + 1)
        else if count = 0 ∧ dateStr d = todayS then
          streakGo h todayS fuel (prevDay d) count
        else
          some count := rfl

/-- The streak loop, run with fuel `history.length + 2`, terminates and
produces the streak described by the specification. -/
theorem streakGo_eq_spec (h : List (String × Int)) {today : CivilDate}
    (hv : validDate today) :
    streakGo h (dateStr today) (h.length + 2) today 0
      = some (specStreak h today) := by
  by_cases hpos : 0 < getVal h (dateStr today)
  · obtain ⟨k, hkle, hrun, hbreak⟩ := exists_break h hv
    have hk0 : k ≠ 0 := by
      intro h0
      rw [h0] at hbreak
      exact hbreak hpos
    obtain ⟨k', rfl⟩ : ∃ k', k = k' + 1 := ⟨k - 1, by omega⟩
    have hspec : specStreak h today = k' + 1 := by
      unfold specStreak
      rw [if_pos hpos]
      exact specRun_eq_of_break h (k' + 1) today (h.length + 1) hrun hbreak
        (by omega)
    rw [hspec]
    rw [show h.length + 2 = (h.length + 1) + 1 from rfl, streakGo_succ,
      if_pos hpos]
    have hrun' : RunPos h (prevDay today) k' := fun i hi => hrun (i + 1) (by omega)
    have hbreak' : ¬ 0 < getVal h (dateStr (iterPrev k' (prevDay today))) := hbreak
    rw [streakGo_count h (dateStr today) k' (prevDay today) (0 + 1)
      (h.length + 1) (by omega) hrun' hbreak' (by omega)]
    simp only [Option.some.injEq]
    omega
  · obtain ⟨k, hkle, hrun, hbreak⟩ := exists_break h (prevDay_valid hv)
    have hspec : specStreak h today = k := by
      unfold specStreak
      rw [if_neg hpos]
      exact specRun_eq_of_break h k (prevDay today) (h.length + 1) hrun hbreak
        (by omega)
    rw [hspec]
    rw [show h.length + 2 = (h.length + 1) + 1 from rfl, streakGo_succ,
      if_neg hpos,
      if_pos (show (0 = 0 ∧ dateStr today = dateStr today) from ⟨rfl, rfl⟩)]
    cases k with
    | zero =>
      have hnot : ¬ 0 < getVal h (dateStr (prevDay today)) := hbreak
      have hne : dateStr (prevDay today) ≠ dateStr today := by
        intro heq
        have heqd := dateStr_inj (prevDay_valid hv) hv heq
        have hd := prevDay_dlt hv
        rw [heqd] at hd
        exact dlt_irrefl today hd
      rw [streakGo_succ, if_neg hnot, if_neg (fun hand => hne hand.2)]
    | succ k' =>
      have hpos' : 0 < getVal h (dateStr (prevDay today)) := hrun 0 (by omega)
      rw [streakGo_succ, if_pos hpos']
      have hrun' : RunPos h (prevDay (prevDay today)) k' :=
        fun i hi => hrun (i + 1) (by omega)
      have hbreak' :
          ¬ 0 < getVal h (dateStr (iterPrev k' (prevDay (prevDay today)))) := hbreak
      rw [streakGo_count h (dateStr today) k' (prevDay (prevDay today)) (0 + 1)
        h.length (by omega) hrun' hbreak' (by omega)]
      simp only [Option.some.injEq]
      omega

/-- `updateStreak` computes exactly the specified streak. -/
theorem computeStreak_eq_spec (h : List (String × Int)) {today : CivilDate}
    (hv : validDate today) : computeStreak h today = specStreak h today := by
  unfold computeStreak
  rw [streakGo_eq_spec h hv]
  rfl

/-! ### Field characterisations of the engine operations -/

theorem updateStreak_xp (s : AppState) (t : CivilDate) :
    (updateStreak s t).xp = s.xp := rfl

theorem updateStreak_totalCompleted (s : AppState) (t : CivilDate) :
    (updateStreak s t).totalCompleted = s.totalCompleted := rfl

theorem updateStreak_goalsCompleted (s : AppState) (t : CivilDate) :
    (updateStreak s t).goalsCompleted = s.goalsCompleted := rfl

theorem updateStreak_lastDate (s : AppState) (t : CivilDate) :
    (updateStreak s t).lastDate = s.lastDate := rfl

theorem updateStreak_dailies (s : AppState) (t : CivilDate) :
    (updateStreak s t).dailies = s.dailies := rfl

theorem updateStreak_goals (s : AppState) (t : CivilDate) :
    (updateStreak s t).goals = s.goals := rfl

theorem updateStreak_customQuests (s : AppState) (t : CivilDate) :
    (updateStreak s t).customQuests = s.customQuests := rfl

theorem updateStreak_history (s : AppState) (t : CivilDate) :
    (updateStreak s t).history = s.history := rfl

theorem updateStreak_unlockedAchievements (s : AppState) (t : CivilDate) :
    (updateStreak s t).unlockedAchievements = s.unlockedAchievements := rfl

theorem checkAchievements_xp (s : AppState) :
    (checkAchievements s).xp = s.xp := (checkAchievements_frame s).1

theorem checkAchievements_totalCompleted (s : AppState) :
    (checkAchievements s).totalCompleted = s.totalCompleted :=
  (checkAchievements_frame s).2.1

theorem checkAchievements_goalsCompleted (s : AppState) :
    (checkAchievements s).goalsCompleted = s.goalsCompleted :=
  (checkAchievements_frame s).2.2.1

theorem checkAchievements_lastDate (s : AppState) :
    (checkAchievements s).lastDate = s.lastDate :=
  (checkAchievements_frame s).2.2.2.1

theorem checkAchievements_dailies (s : AppState) :
    (checkAchievements s).dailies = s.dailies :=
  (checkAchievements_frame s).2.2.2.2.1

theorem checkAchievements_goals (s : AppState) :
    (checkAchievements s).goals = s.goals :=
  (checkAchievements_frame s).2.2.2.2.2.1

theorem checkAchievements_customQuests (s : AppState) :
    (checkAchievements s).customQuests = s.customQuests :=
  (checkAchievements_frame s).2.2.2.2.2.2.1

theorem checkAchievements_history (s : AppState) :
    (checkAchievements s).history = s.history :=
  (checkAchievements_frame s).2.2.2.2.2.2.2.1

theorem checkAchievements_currentStreak (s : AppState) :
    (checkAchievements s).currentStreak = s.currentStreak :=
  (checkAchievements_frame s).2.2.2.2.2.2.2.2

/-- `updateDailyProgress` unfolded to its final
`updateStreak`-after-`checkAchievements` shape. -/
theorem updateDailyProgress_eq (st : AppState) (today : CivilDate)
    (questId : String) (change xpGain : Int) (type : QType) (mx : Int) :
    updateDailyProgress st today questId change xpGain type mx
      = updateStreak (checkAchievements
          { st with
            xp := max 0 (st.xp
              + (dailyDelta (getVal st.dailies questId) change xpGain type mx).2.1),
            totalCompleted := max 0 (st.totalCompleted
              + (dailyDelta (getVal st.dailies questId) change xpGain type mx).2.2),
            dailies := setVal st.dailies questId
              (dailyDelta (getVal st.dailies questId) change xpGain type mx).1,
            history := setVal st.history (dateStr today)
              (max 0 (getVal st.history (dateStr today)
                + (dailyDelta (getVal st.dailies questId) change xpGain type mx).2.2)) })
          today := rfl

theorem updateDailyProgress_fields (st : AppState) (today : CivilDate)
    (questId : String) (change xpGain : Int) (type : QType) (mx : Int) :
    (updateDailyProgress st today questId change xpGain type mx).xp
        = max 0 (st.xp
            + (dailyDelta (getVal st.dailies questId) change xpGain type mx).2.1)
      ∧ (updateDailyProgress st today questId change xpGain type mx).totalCompleted
        = max 0 (st.totalCompleted
            + (dailyDelta (getVal st.dailies questId) change xpGain type mx).2.2)
      ∧ (updateDailyProgress st today questId change xpGain type mx).dailies
        = setVal st.dailies questId
            (dailyDelta (getVal st.dailies questId) change xpGain type mx).1
      ∧ (updateDailyProgress st today questId change xpGain type mx).history
        = setVal st.history (dateStr today)
            (max 0 (getVal st.history (dateStr today)
              + (dailyDelta (getVal st.dailies questId) change xpGain type mx).2.2))
      ∧ (updateDailyProgress st today questId change xpGain type mx).goalsCompleted
        = st.goalsCompleted
      ∧ (updateDailyProgress st today questId change xpGain type mx).goals = st.goals
      ∧ (updateDailyProgress st today questId change xpGain type mx).customQuests
        = st.customQuests
      ∧ (updateDailyProgress st today questId change xpGain type mx).lastDate
        = st.lastDate := by
  refine ⟨?_, ?_, ?_, ?_, ?_, ?_, ?_, ?_⟩
  · rw [updateDailyProgress_eq, updateStreak_xp, checkAchievements_xp]
  · rw [updateDailyProgress_eq, updateStreak_totalCompleted,
      checkAchievements_totalCompleted]
  · rw [updateDailyProgress_eq, updateStreak_dailies, checkAchievements_dailies]
  · rw [updateDailyProgress_eq, updateStreak_history, checkAchievements_history]
  · rw [updateDailyProgress_eq, updateStreak_goalsCompleted,
      checkAchievements_goalsCompleted]
  · rw [updateDailyProgress_eq, updateStreak_goals, checkAchievements_goals]
  · rw [updateDailyProgress_eq, updateStreak_customQuests,
      checkAchievements_customQuests]
  · rw [updateDailyProgress_eq, updateStreak_lastDate, checkAchievements_lastDate]

theorem dailyDelta_counter (cp change g mx : Int) :
    dailyDelta cp change g .counter mx
      = (max 0 (min mx (cp + change)),
         (max 0 (min mx (cp + change)) - cp) * g,
         if max 0 (min mx (cp + change)) = mx ∧ cp < mx then 1
         else if max 0 (min mx (cp + change)) < mx ∧ cp = mx then -1
         else 0) := rfl

theorem dailyDelta_bool_on {cp change : Int} (g mx : Int) (hcp : cp = 0)
    (hch : change ≠ 0) : dailyDelta cp change g .boolean mx = (1, g, 1) := by
  unfold dailyDelta
  simp only [hch, if_false, hcp]
  norm_num

theorem dailyDelta_bool_off {cp change : Int} (g mx : Int) (hcp : cp = 1)
    (hch : change = 0) : dailyDelta cp change g .boolean mx = (0, -g, -1) := by
  unfold dailyDelta
  simp only [hch, if_true, hcp]
  norm_num

theorem dailyDelta_bool_noop {cp change : Int} (g mx : Int)
    (h : (if change = 0 then (0 : Int) else 1) = cp) :
    dailyDelta cp change g .boolean mx = (cp, 0, 0) := by
  unfold dailyDelta
  by_cases hch : change = 0
  · rw [hch] at h ⊢
    simp only [if_true] at h ⊢
    rw [← h]
    norm_num
  · simp only [hch, if_false] at h ⊢
    rw [← h]
    norm_num

/-- `updateGoal` on a state whose goal list contains the identifier. -/
theorem updateGoal_eq (st : AppState) (id : String) (change : Int) (gl : Goal)
    (hfind : st.goals.find? (fun g => g.id == id) = some gl) :
    updateGoal st id change
      = checkAchievements
          { st with
            goals := setGoal st.goals id
              { gl with current := max 0 (min gl.target (gl.current + change)) },
            xp := if max 0 (min gl.target (gl.current + change)) = gl.target
                ∧ gl.current < gl.target then st.xp + 200 else st.xp,
            goalsCompleted :=
              if max 0 (min gl.target (gl.current + change)) = gl.target
                ∧ gl.current < gl.target then st.goalsCompleted + 1
              else st.goalsCompleted } := by
  unfold updateGoal
  rw [hfind]

/-- `updateGoal` with an unknown identifier is a no-op. -/
theorem updateGoal_none (st : AppState) (id : String) (change : Int)
    (hfind : st.goals.find? (fun g => g.id == id) = none) :
    updateGoal st id change = st := by
  unfold updateGoal
  rw [hfind]

/-- `init` when the stored date differs from today (the rollover path). -/
theorem init_eq (st : AppState) (today : CivilDate)
    (hne : st.lastDate ≠ dateStr today) :
    init st today
      = updateStreak
          { st with
            lastDate := dateStr today,
            dailies := [],
            history :=
              if getVal st.history (dateStr today) = 0 then
                setVal st.history (dateStr today) 0
              else st.history } today := by
  unfold init
  rw [if_neg hne]

/-- Every goal in a `setGoal` result is an old goal or the new one. -/
theorem setGoal_mem : ∀ (l : List Goal) (id : String) (g' g : Goal),
    g ∈ setGoal l id g' → g ∈ l ∨ g = g' := by
  intro l
  induction l with
  | nil => intro id g' g hg; simp [setGoal] at hg
  | cons q qs ih =>
    intro id g' g hg
    by_cases h : q.id = id
    · simp only [setGoal, beq_iff_eq, h, if_true] at hg
      rcases List.mem_cons.mp hg with rfl | hmem
      · right; rfl
      · left; exact List.mem_cons_of_mem _ hmem
    · simp only [setGoal, beq_iff_eq, h, if_false] at hg
      rcases List.mem_cons.mp hg with rfl | hmem
      · left; exact List.mem_cons_self _ _
      · rcases ih id g' g hmem with hin | heq
        · left; exact List.mem_cons_of_mem _ hin
        · right; exact heq

/-! ### Claims -/

/-- C9: for all `xp ≥ 0`, `calculateLevel xp ≥ 1`, `calculateLevel` is
non-decreasing in `xp`, `calculateLevel 0 = 1`, and the value is
`floor (sqrt (xp / 100)) + 1` (the integer square root of the floored
quotient). -/
theorem claim_C9 :
    (∀ xp : Int, 0 ≤ xp → 1 ≤ calculateLevel xp)
    ∧ (∀ x y : Int, 0 ≤ x → x ≤ y → calculateLevel x ≤ calculateLevel y)
    ∧ calculateLevel 0 = 1
    ∧ (∀ xp : Int, calculateLevel xp = Nat.sqrt (xp.toNat / BASE_XP) + 1) := by
  refine ⟨fun xp _ => calculateLevel_pos xp,
    fun x y _ hxy => calculateLevel_mono hxy, by decide, ?_⟩
  intro xp
  unfold calculateLevel
  rw [isqrt_eq_sqrt]

theorem claim_C9_witness :
    ((0 : Int) ≤ 250) ∧ ((250 : Int) ≤ 901)
    ∧ 1 ≤ calculateLevel 250 ∧ calculateLevel 250 ≤ calculateLevel 901 :=
  ⟨by decide, by decide, claim_C9.1 250 (by decide),
    claim_C9.2.1 250 901 (by decide) (by decide)⟩

/-- C10: the `updateStreak` loop terminates within
`history.length + 2` iterations: run with that much fuel it always
returns `some` streak value. -/
theorem claim_C10 (st : AppState) (today : CivilDate) (hv : validDate today) :
    (streakGo st.history (dateStr today) (st.history.length + 2) today 0).isSome := by
  rw [streakGo_eq_spec st.history hv]
  rfl

theorem claim_C10_witness :
    validDate ⟨2024, 1, 3⟩
    ∧ (streakGo ({ getDefaultState with
          history := [("2024-01-03", 1)] } : AppState).history
        (dateStr ⟨2024, 1, 3⟩)
        (({ getDefaultState with
          history := [("2024-01-03", 1)] } : AppState).history.length + 2)
        ⟨2024, 1, 3⟩ 0).isSome :=
  ⟨by decide,
    claim_C10 { getDefaultState with history := [("2024-01-03", 1)] }
      ⟨2024, 1, 3⟩ (by decide)⟩

/-- C1: `updateStreak` sets `currentStreak` to the specified count of
consecutive positive days walking backward from today (with today
itself skipped once when non-positive and nothing counted yet), and the
two concrete examples from the specification hold. -/
theorem claim_C1 (st : AppState) (today : CivilDate) (hv : validDate today) :
    (updateStreak st today).currentStreak = specStreak st.history today
    ∧ (updateStreak { getDefaultState with
        history := [("2024-01-01", 1), ("2024-01-02", 1), ("2024-01-03", 0)] }
        ⟨2024, 1, 3⟩).currentStreak = 2
    ∧ (updateStreak { getDefaultState with
        history := [("2024-01-01", 1), ("2024-01-02", 0), ("2024-01-03", 1)] }
        ⟨2024, 1, 3⟩).currentStreak = 1 :=
  ⟨computeStreak_eq_spec st.history hv, by decide, by decide⟩

theorem claim_C1_witness :
    validDate ⟨2024, 1, 5⟩
    ∧ (updateStreak { getDefaultState with history := [("2024-01-05", 2)] }
        ⟨2024, 1, 5⟩).currentStreak
      = specStreak [("2024-01-05", 2)] ⟨2024, 1, 5⟩ :=
  ⟨by decide,
    (claim_C1 { getDefaultState with history := [("2024-01-05", 2)] }
      ⟨2024, 1, 5⟩ (by decide)).1⟩

/-- C8: achievement evaluation only appends to
`unlockedAchievements`: the result is the old list followed, in
evaluation order, by exactly the identifiers whose predicate holds of
the current state and which were not already present; re-evaluating
the resulting state appends nothing. -/
theorem claim_C8 (st : AppState) :
    (checkAchievements st).unlockedAchievements
      = st.unlockedAchievements
        ++ (ACHIEVEMENTS.filter (fun a =>
            a.condition st && !(st.unlockedAchievements.contains a.id))).map
          Achievement.id
    ∧ (checkAchievements (checkAchievements st)).unlockedAchievements
      = (checkAchievements st).unlockedAchievements :=
  ⟨checkAchievements_unlocked st, checkAchievements_idem st⟩

/-- The `level_5` identifier survives the evaluation filter exactly when
the level condition holds and it is not yet unlocked. -/
theorem level5_filter_iff (st : AppState) :
    ("level_5" ∈ (ACHIEVEMENTS.filter (fun a =>
        a.condition st && !(st.unlockedAchievements.contains a.id))).map
      Achievement.id)
    ↔ (5 ≤ calculateLevel st.xp ∧ "level_5" ∉ st.unlockedAchievements) := by
  constructor
  · intro hmem
    obtain ⟨a, hain, haid⟩ := List.mem_map.mp hmem
    obtain ⟨haA, hP⟩ := List.mem_filter.mp hain
    rw [Bool.and_eq_true] at hP
    fin_cases haA
    all_goals first
      | exact absurd haid (by decide)
      | skip
    refine ⟨of_decide_eq_true hP.1, fun hin => ?_⟩
    have h2 : (!(st.unlockedAchievements.contains "level_5")) = true := hP.2
    have hb : st.unlockedAchievements.contains "level_5" = true :=
      List.elem_iff.mpr hin
    rw [hb] at h2
    exact absurd h2 (by decide)
  · intro hc
    refine List.mem_map.mpr
      ⟨⟨"level_5", "Rising Developer", "Reach level 5",
        fun state => 5 ≤ calculateLevel state.xp⟩, ?_, rfl⟩
    refine List.mem_filter.mpr ⟨by simp [ACHIEVEMENTS], ?_⟩
    rw [Bool.and_eq_true]
    refine ⟨decide_eq_true hc.1, ?_⟩
    cases hb : List.elem "level_5" st.unlockedAchievements
    · show (!(List.elem "level_5" st.unlockedAchievements)) = true
      rw [hb]
      rfl
    · exact absurd (List.elem_iff.mp hb) hc.2

/-- C2: refutation of the stated threshold.  At `xp = 1600` (which is
strictly below `xpForNextLevel 5 = 2500`) achievement evaluation
already appends `level_5`, because the condition is
`calculateLevel xp ≥ 5`, first true at `xpForNextLevel 4 = 1600`. -/
theorem claim_C2_counterexample :
    ("level_5" ∈ (checkAchievements
        { getDefaultState with xp := 1600 }).unlockedAchievements)
    ∧ ({ getDefaultState with xp := 1600 } : AppState).xp < xpForNextLevel 5
    ∧ ("level_5" ∉
        ({ getDefaultState with xp := 1600 } : AppState).unlockedAchievements) := by
  decide

/-- C2 (amended): evaluation appends `level_5` exactly when
`xp ≥ xpForNextLevel 4` (the xp at which `calculateLevel` first
reaches 5) and it is not already present; once present it is never
appended again (its multiplicity is preserved). -/
theorem claim_C2 (st : AppState) :
    ("level_5" ∈ (checkAchievements st).unlockedAchievements
      ↔ ("level_5" ∈ st.unlockedAchievements ∨ xpForNextLevel 4 ≤ st.xp))
    ∧ ("level_5" ∈ st.unlockedAchievements →
        ((checkAchievements st).unlockedAchievements.count "level_5"
          = st.unlockedAchievements.count "level_5")) := by
  constructor
  · rw [checkAchievements_unlocked st, List.mem_append, level5_filter_iff st]
    constructor
    · rintro (h | h)
      · exact Or.inl h
      · exact Or.inr (calculateLevel_ge_five_iff st.xp |>.mp h.1)
    · rintro (h | h)
      · exact Or.inl h
      · by_cases hin : "level_5" ∈ st.unlockedAchievements
        · exact Or.inl hin
        · exact Or.inr ⟨(calculateLevel_ge_five_iff st.xp).mpr h, hin⟩
  · intro hin
    rw [checkAchievements_unlocked st, List.count_append]
    have hz : ((ACHIEVEMENTS.filter (fun a =>
        a.condition st && !(st.unlockedAchievements.contains a.id))).map
          Achievement.id).count "level_5" = 0 := by
      rw [List.count_eq_zero]
      intro hmem
      exact ((level5_filter_iff st).mp hmem).2 hin
    rw [hz]
    omega

/-- C6: when `lastDate` differs from today, `init` performs the daily
rollover: it sets `lastDate` to today, clears `dailies`, creates a zero
history entry for today exactly when none exists (an existing entry for
today keeps its value), and leaves every other history entry
unchanged. -/
theorem claim_C6 (st : AppState) (today : CivilDate)
    (hne : st.lastDate ≠ dateStr today) :
    (init st today).lastDate = dateStr today
    ∧ (init st today).dailies = []
    ∧ (getVal? st.history (dateStr today) = none →
        getVal? (init st today).history (dateStr today) = some 0)
    ∧ (∀ v, getVal? st.history (dateStr today) = some v →
        getVal? (init st today).history (dateStr today) = some v)
    ∧ (∀ s, s ≠ dateStr today →
        getVal? (init st today).history s = getVal? st.history s) := by
  rw [init_eq st today hne]
  have hhist : ∀ s, getVal? (updateStreak
      { st with
        lastDate := dateStr today,
        dailies := [],
        history :=
          if getVal st.history (dateStr today) = 0 then
            setVal st.history (dateStr today) 0
          else st.history } today).history s
      = getVal? (if getVal st.history (dateStr today) = 0 then
          setVal st.history (dateStr today) 0
        else st.history) s := fun s => rfl
  refine ⟨rfl, rfl, ?_, ?_, ?_⟩
  · intro habs
    rw [hhist]
    have h0 : getVal st.history (dateStr today) = 0 := by
      show (getVal? st.history (dateStr today)).getD 0 = 0
      rw [habs]
      rfl
    rw [if_pos h0]
    exact getVal?_setVal_self _ _ _
  · intro v hv
    rw [hhist]
    by_cases h0 : getVal st.history (dateStr today) = 0
    · have hv0 : v = 0 := by
        have : getVal st.history (dateStr today) = v := by
          show (getVal? st.history (dateStr today)).getD 0 = v
          rw [hv]
          rfl
        omega
      rw [if_pos h0, getVal?_setVal_self, hv0]
    · rw [if_neg h0]
      exact hv
  · intro s hs
    rw [hhist]
    by_cases h0 : getVal st.history (dateStr today) = 0
    · rw [if_pos h0]
      exact getVal?_setVal_ne _ _ _ _ hs
    · rw [if_neg h0]

theorem claim_C6_witness :
    rolloverExampleState.lastDate ≠ dateStr ⟨2024, 1, 3⟩
    ∧ (init rolloverExampleState ⟨2024, 1, 3⟩).dailies = [] :=
  ⟨by decide, (claim_C6 rolloverExampleState ⟨2024, 1, 3⟩ (by decide)).2.1⟩

theorem updateGoal_xp (st : AppState) (id : String) (change : Int) (gl : Goal)
    (hfind : st.goals.find? (fun g => g.id == id) = some gl) :
    (updateGoal st id change).xp
      = if max 0 (min gl.target (gl.current + change)) = gl.target
          ∧ gl.current < gl.target then st.xp + 200 else st.xp := by
  rw [updateGoal_eq st id change gl hfind, checkAchievements_xp]

theorem updateGoal_goalsCompleted (st : AppState) (id : String) (change : Int)
    (gl : Goal) (hfind : st.goals.find? (fun g => g.id == id) = some gl) :
    (updateGoal st id change).goalsCompleted
      = if max 0 (min gl.target (gl.current + change)) = gl.target
          ∧ gl.current < gl.target then st.goalsCompleted + 1
        else st.goalsCompleted := by
  rw [updateGoal_eq st id change gl hfind, checkAchievements_goalsCompleted]

theorem updateGoal_goals (st : AppState) (id : String) (change : Int) (gl : Goal)
    (hfind : st.goals.find? (fun g => g.id == id) = some gl) :
    (updateGoal st id change).goals
      = setGoal st.goals id
          { gl with current := max 0 (min gl.target (gl.current + change)) } := by
  rw [updateGoal_eq st id change gl hfind, checkAchievements_goals]

theorem updateGoal_totalCompleted (st : AppState) (id : String) (change : Int)
    (gl : Goal) (hfind : st.goals.find? (fun g => g.id == id) = some gl) :
    (updateGoal st id change).totalCompleted = st.totalCompleted := by
  rw [updateGoal_eq st id change gl hfind, checkAchievements_totalCompleted]

theorem updateGoal_history (st : AppState) (id : String) (change : Int)
    (gl : Goal) (hfind : st.goals.find? (fun g => g.id == id) = some gl) :
    (updateGoal st id change).history = st.history := by
  rw [updateGoal_eq st id change gl hfind, checkAchievements_history]

/-- C5: `updateGoal` on a present goal clamps `current` to
`[0, target]` and grants exactly +200 xp and one `goalsCompleted`
increment precisely on a transition reaching `target` from strictly
below; at-target updates re-grant nothing.  With `target = 10` and
increments `+3, +3, +3, +1` the bonus fires exactly once, on the
fourth update. -/
theorem claim_C5 (st : AppState) (id : String) (change : Int) (gl : Goal)
    (hfind : st.goals.find? (fun g => g.id == id) = some gl)
    (hcur0 : 0 ≤ gl.current) (hcurT : gl.current ≤ gl.target) :
    (updateGoal st id change).goals
      = setGoal st.goals id
          { gl with current := max 0 (min gl.target (gl.current + change)) }
    ∧ 0 ≤ max 0 (min gl.target (gl.current + change))
    ∧ max 0 (min gl.target (gl.current + change)) ≤ gl.target
    ∧ ((max 0 (min gl.target (gl.current + change)) = gl.target
        ∧ gl.current < gl.target) →
        (updateGoal st id change).xp = st.xp + 200
        ∧ (updateGoal st id change).goalsCompleted = st.goalsCompleted + 1)
    ∧ (¬(max 0 (min gl.target (gl.current + change)) = gl.target
        ∧ gl.current < gl.target) →
        (updateGoal st id change).xp = st.xp
        ∧ (updateGoal st id change).goalsCompleted = st.goalsCompleted)
    ∧ (gl.current = gl.target →
        (updateGoal st id change).xp = st.xp
        ∧ (updateGoal st id change).goalsCompleted = st.goalsCompleted)
    ∧ (updateGoal (updateGoal (updateGoal goalExampleState "g1" 3)
        "g1" 3) "g1" 3).xp = 0
    ∧ (updateGoal (updateGoal (updateGoal goalExampleState "g1" 3)
        "g1" 3) "g1" 3).goalsCompleted = 0
    ∧ (updateGoal (updateGoal (updateGoal (updateGoal goalExampleState "g1" 3)
        "g1" 3) "g1" 3) "g1" 1).xp = 200
    ∧ (updateGoal (updateGoal (updateGoal (updateGoal goalExampleState "g1" 3)
        "g1" 3) "g1" 3) "g1" 1).goalsCompleted = 1 := by
  refine ⟨updateGoal_goals st id change gl hfind, by omega, by omega, ?_, ?_, ?_,
    by decide, by decide, by decide, by decide⟩
  · intro hcN
    rw [updateGoal_xp st id change gl hfind,
      updateGoal_goalsCompleted st id change gl hfind, if_pos hcN, if_pos hcN]
    exact ⟨rfl, rfl⟩
  · intro hcN
    rw [updateGoal_xp st id change gl hfind,
      updateGoal_goalsCompleted st id change gl hfind, if_neg hcN, if_neg hcN]
    exact ⟨rfl, rfl⟩
  · intro heq
    have hcN : ¬(max 0 (min gl.target (gl.current + change)) = gl.target
        ∧ gl.current < gl.target) := by
      intro hand
      omega
    rw [updateGoal_xp st id change gl hfind,
      updateGoal_goalsCompleted st id change gl hfind, if_neg hcN, if_neg hcN]
    exact ⟨rfl, rfl⟩

theorem claim_C5_witness :
    (goalExampleState.goals.find? (fun g => g.id == "g1")
      = some (Goal.mk "g1" "Launch portfolio" 10 0))
    ∧ (0 : Int) ≤ (Goal.mk "g1" "Launch portfolio" 10 0).current
    ∧ (Goal.mk "g1" "Launch portfolio" 10 0).current
      ≤ (Goal.mk "g1" "Launch portfolio" 10 0).target
    ∧ (updateGoal goalExampleState "g1" 3).goals
      = setGoal goalExampleState.goals "g1" (Goal.mk "g1" "Launch portfolio" 10 3) :=
  ⟨by decide, by decide, by decide, by
    have h := (claim_C5 goalExampleState "g1" 3
      (Goal.mk "g1" "Launch portfolio" 10 0) (by decide) (by decide) (by decide)).1
    simpa using h⟩

/-- C4: refutation of the unfloored completion delta.  From
`counterEdgeState` (progress 5 of 5, `totalCompleted = 0`,
`history` empty), a `-1` update leaves `max` (so the claim demands a
`-1` change of `totalCompleted` and `history[today]`), but the code
floors both at 0: they stay 0 instead of becoming -1. -/
theorem claim_C4_counterexample :
    getVal counterEdgeState.dailies "leetcode" = 5
    ∧ max 0 (min 5 (getVal counterEdgeState.dailies "leetcode" + (-1))) < 5
    ∧ counterEdgeState.totalCompleted = 0
    ∧ (updateDailyProgress counterEdgeState ⟨2024, 1, 1⟩ "leetcode" (-1) 15
        .counter 5).totalCompleted = 0
    ∧ ¬((updateDailyProgress counterEdgeState ⟨2024, 1, 1⟩ "leetcode" (-1) 15
        .counter 5).totalCompleted = counterEdgeState.totalCompleted - 1)
    ∧ getVal (updateDailyProgress counterEdgeState ⟨2024, 1, 1⟩ "leetcode" (-1) 15
        .counter 5).history (dateStr ⟨2024, 1, 1⟩) = 0
    ∧ ¬(getVal (updateDailyProgress counterEdgeState ⟨2024, 1, 1⟩ "leetcode" (-1) 15
        .counter 5).history (dateStr ⟨2024, 1, 1⟩)
      = getVal counterEdgeState.history (dateStr ⟨2024, 1, 1⟩) - 1) := by
  decide

/-- C4 (amended): for a counter update the new progress is
`clamp(p + c, 0, max)`, xp changes by `(newProgress - p) * xpPerUnit`
floored at 0, and `totalCompleted` and `history[today]` change by the
completion delta (+1 on reaching `max` from below, -1 on leaving
`max`, 0 otherwise) *floored at 0*. -/
theorem claim_C4 (st : AppState) (today : CivilDate) (q : String)
    (c g mx : Int) (np δ : Int)
    (hp0 : 0 ≤ getVal st.dailies q) (hpm : getVal st.dailies q ≤ mx)
    (hnp : np = max 0 (min mx (getVal st.dailies q + c)))
    (hδ : δ = if np = mx ∧ getVal st.dailies q < mx then 1
        else if np < mx ∧ getVal st.dailies q = mx then -1 else 0) :
    getVal (updateDailyProgress st today q c g .counter mx).dailies q = np
    ∧ (updateDailyProgress st today q c g .counter mx).xp
      = max 0 (st.xp + (np - getVal st.dailies q) * g)
    ∧ (updateDailyProgress st today q c g .counter mx).totalCompleted
      = max 0 (st.totalCompleted + δ)
    ∧ getVal (updateDailyProgress st today q c g .counter mx).history
        (dateStr today)
      = max 0 (getVal st.history (dateStr today) + δ) := by
  obtain ⟨hxp, htc, hda, hhi, -, -, -, -⟩ :=
    updateDailyProgress_fields st today q c g .counter mx
  rw [dailyDelta_counter] at hxp htc hda hhi
  dsimp only at hxp htc hda hhi
  subst hnp
  subst hδ
  refine ⟨?_, ?_, ?_, ?_⟩
  · rw [hda, getVal_setVal_self]
  · rw [hxp]
  · rw [htc]
  · rw [hhi, getVal_setVal_self]

theorem claim_C4_witness :
    ((0 : Int) ≤ getVal counterEdgeState.dailies "leetcode")
    ∧ (getVal counterEdgeState.dailies "leetcode" ≤ 5)
    ∧ ((4 : Int) = max 0 (min 5 (getVal counterEdgeState.dailies "leetcode" + (-1))))
    ∧ ((-1 : Int) = if (4 : Int) = 5 ∧ getVal counterEdgeState.dailies "leetcode" < 5
        then 1
        else if (4 : Int) < 5 ∧ getVal counterEdgeState.dailies "leetcode" = 5
        then -1 else 0)
    ∧ (updateDailyProgress counterEdgeState ⟨2024, 1, 1⟩ "leetcode" (-1) 15
        .counter 5).totalCompleted
      = max 0 (counterEdgeState.totalCompleted + (-1)) :=
  ⟨by decide, by decide, by decide, by decide,
    (claim_C4 counterEdgeState ⟨2024, 1, 1⟩ "leetcode" (-1) 15 5 4 (-1)
      (by decide) (by decide) (by decide) (by decide)).2.2.1⟩

/-- C3: on a well-formed state (non-negative xp, counters and history,
non-negative xp reward), toggling a boolean quest on and then off
restores `xp`, `totalCompleted` and `history[today]` exactly; and a
boolean call whose target equals the current progress changes none of
them. -/
theorem claim_C3 (st : AppState) (today : CivilDate) (q : String) (g mx : Int)
    (hxp : 0 ≤ st.xp) (htc : 0 ≤ st.totalCompleted)
    (hh : 0 ≤ getVal st.history (dateStr today)) (hg : 0 ≤ g) :
    (getVal st.dailies q = 0 →
      (updateDailyProgress (updateDailyProgress st today q 1 g .boolean mx)
          today q 0 g .boolean mx).xp = st.xp
      ∧ (updateDailyProgress (updateDailyProgress st today q 1 g .boolean mx)
          today q 0 g .boolean mx).totalCompleted = st.totalCompleted
      ∧ getVal (updateDailyProgress (updateDailyProgress st today q 1 g .boolean mx)
          today q 0 g .boolean mx).history (dateStr today)
        = getVal st.history (dateStr today))
    ∧ (∀ c : Int, (if c = 0 then (0 : Int) else 1) = getVal st.dailies q →
        (updateDailyProgress st today q c g .boolean mx).xp = st.xp
        ∧ (updateDailyProgress st today q c g .boolean mx).totalCompleted
          = st.totalCompleted
        ∧ getVal (updateDailyProgress st today q c g .boolean mx).history
            (dateStr today) = getVal st.history (dateStr today)) := by
  constructor
  · intro hcp0
    set s1 := updateDailyProgress st today q 1 g .boolean mx with hs1
    obtain ⟨h1xp, h1tc, h1da, h1hi, -, -, -, -⟩ :=
      updateDailyProgress_fields st today q 1 g .boolean mx
    rw [dailyDelta_bool_on g mx hcp0 one_ne_zero] at h1xp h1tc h1da h1hi
    dsimp only at h1xp h1tc h1da h1hi
    have e1xp : s1.xp = st.xp + g := by rw [hs1, h1xp]; omega
    have e1tc : s1.totalCompleted = st.totalCompleted + 1 := by
      rw [hs1, h1tc]; omega
    have e1cp : getVal s1.dailies q = 1 := by
      rw [hs1, h1da, getVal_setVal_self]
    have e1hi : getVal s1.history (dateStr today)
        = getVal st.history (dateStr today) + 1 := by
      rw [hs1, h1hi, getVal_setVal_self]; omega
    obtain ⟨h2xp, h2tc, h2da, h2hi, -, -, -, -⟩ :=
      updateDailyProgress_fields s1 today q 0 g .boolean mx
    rw [dailyDelta_bool_off g mx e1cp rfl] at h2xp h2tc h2hi
    dsimp only at h2xp h2tc h2hi
    refine ⟨?_, ?_, ?_⟩
    · rw [h2xp, e1xp]; omega
    · rw [h2tc, e1tc]; omega
    · rw [h2hi, getVal_setVal_self, e1hi]; omega
  · intro c hc
    obtain ⟨hxp2, htc2, hda2, hhi2, -, -, -, -⟩ :=
      updateDailyProgress_fields st today q c g .boolean mx
    rw [dailyDelta_bool_noop g mx hc] at hxp2 htc2 hhi2
    dsimp only at hxp2 htc2 hhi2
    refine ⟨?_, ?_, ?_⟩
    · rw [hxp2]; omega
    · rw [htc2]; omega
    · rw [hhi2, getVal_setVal_self]; omega

theorem claim_C3_witness :
    ((0 : Int) ≤ getDefaultState.xp)
    ∧ ((0 : Int) ≤ getDefaultState.totalCompleted)
    ∧ ((0 : Int) ≤ getVal getDefaultState.history (dateStr ⟨2024, 1, 2⟩))
    ∧ ((0 : Int) ≤ (25 : Int))
    ∧ (getVal getDefaultState.dailies "commit" = 0)
    ∧ (updateDailyProgress
        (updateDailyProgress getDefaultState ⟨2024, 1, 2⟩ "commit" 1 25 .boolean 1)
        ⟨2024, 1, 2⟩ "commit" 0 25 .boolean 1).xp = getDefaultState.xp :=
  ⟨by decide, by decide, by decide, by decide, by decide,
    ((claim_C3 getDefaultState ⟨2024, 1, 2⟩ "commit" 25 1
      (by decide) (by decide) (by decide) (by decide)).1 (by decide)).1⟩

theorem Inv_of_frameEq {t s : AppState} (hf : FrameEq t s) (h : StateInv s) : StateInv t := by
  obtain ⟨f1, f2, f3, f4, f5, f6, f7, f8, f9⟩ := hf
  unfold StateInv at *
  rw [f1, f2, f8, f6]
  exact h

theorem dailyDelta_bool_fst (cp c g mx : Int) :
    (dailyDelta cp c g .boolean mx).1 = if c = 0 then 0 else 1 := by
  unfold dailyDelta
  dsimp only
  split_ifs <;> rfl

theorem updateDailyProgress_inv (st : AppState) (today : CivilDate)
    (q : String) (c g : Int) (ty : QType) (mx : Int) (h : StateInv st) :
    StateInv (updateDailyProgress st today q c g ty mx) := by
  obtain ⟨hxp, htc, hda, hhi, hgc, hgoals, hcq, hld⟩ :=
    updateDailyProgress_fields st today q c g ty mx
  obtain ⟨h1, h2, h3, h4⟩ := h
  refine ⟨?_, ?_, ?_, ?_⟩
  · rw [hxp]; exact le_max_left 0 _
  · rw [htc]; exact le_max_left 0 _
  · rw [hhi]
    exact setVal_forall _ _ _ _ h3 (le_max_left 0 _)
  · rw [hgoals]; exact h4

theorem updateDailyProgress_dailies_self (st : AppState) (today : CivilDate)
    (q : String) (c g : Int) (ty : QType) (mx : Int) :
    getVal (updateDailyProgress st today q c g ty mx).dailies q
      = (dailyDelta (getVal st.dailies q) c g ty mx).1 := by
  obtain ⟨-, -, hda, -, -, -, -, -⟩ :=
    updateDailyProgress_fields st today q c g ty mx
  rw [hda, getVal_setVal_self]

theorem addGoal_inv (st : AppState) (title : String) (target : Int)
    (newId : String) (h : StateInv st) (ht : 0 ≤ target) :
    StateInv (addGoal st title target newId) := by
  obtain ⟨h1, h2, h3, h4⟩ := h
  refine ⟨h1, h2, h3, ?_⟩
  intro g hg
  rcases List.mem_append.mp hg with hmem | hnew
  · exact h4 g hmem
  · have : g = Goal.mk newId title target 0 := by simpa using hnew
    rw [this]
    exact ⟨le_refl 0, ht⟩

theorem updateGoal_inv (st : AppState) (id : String) (c : Int) (h : StateInv st) :
    StateInv (updateGoal st id c) := by
  cases hfind : st.goals.find? (fun g => g.id == id) with
  | none => rw [updateGoal_none st id c hfind]; exact h
  | some gl =>
    have hglb := h.2.2.2 gl (List.mem_of_find?_eq_some hfind)
    refine ⟨?_, ?_, ?_, ?_⟩
    · rw [updateGoal_xp st id c gl hfind]
      have h1 := h.1
      split_ifs <;> omega
    · rw [updateGoal_totalCompleted st id c gl hfind]; exact h.2.1
    · rw [updateGoal_history st id c gl hfind]; exact h.2.2.1
    · rw [updateGoal_goals st id c gl hfind]
      intro g hg
      rcases setGoal_mem _ _ _ _ hg with hmem | hnew
      · exact h.2.2.2 g hmem
      · rw [hnew]
        dsimp only
        omega

theorem deleteGoal_inv (st : AppState) (id : String) (h : StateInv st) :
    StateInv (deleteGoal st id) := by
  obtain ⟨h1, h2, h3, h4⟩ := h
  refine ⟨h1, h2, h3, ?_⟩
  intro g hg
  exact h4 g (List.mem_of_mem_filter hg)

theorem addCustomQuest_inv (st : AppState) (quest : Quest) (newId : String)
    (h : StateInv st) : StateInv (addCustomQuest st quest newId) := by
  refine Inv_of_frameEq (checkAchievements_frame _) ?_
  obtain ⟨h1, h2, h3, h4⟩ := h
  exact ⟨h1, h2, h3, h4⟩

theorem deleteCustomQuest_inv (st : AppState) (id : String) (h : StateInv st) :
    StateInv (deleteCustomQuest st id) := by
  obtain ⟨h1, h2, h3, h4⟩ := h
  exact ⟨h1, h2, h3, h4⟩

/-- C7: every engine operation preserves the data-model invariant
(non-negative xp, counters and history entries; goal progress clamped
to `[0, target]`), and the written daily progress is clamped to
`[0, max]` for counters (respectively `[0, 1]` for booleans), even
when a decrement would otherwise drive a value negative. -/
theorem claim_C7 (st : AppState) (hinv : StateInv st) :
    (∀ (today : CivilDate) (q : String) (c g : Int) (ty : QType) (mx : Int),
      StateInv (updateDailyProgress st today q c g ty mx))
    ∧ (∀ (today : CivilDate) (q : String) (c g mx : Int), 0 ≤ mx →
        0 ≤ getVal (updateDailyProgress st today q c g .counter mx).dailies q
        ∧ getVal (updateDailyProgress st today q c g .counter mx).dailies q ≤ mx)
    ∧ (∀ (today : CivilDate) (q : String) (c g mx : Int),
        0 ≤ getVal (updateDailyProgress st today q c g .boolean mx).dailies q
        ∧ getVal (updateDailyProgress st today q c g .boolean mx).dailies q ≤ 1)
    ∧ (∀ (title : String) (target : Int) (newId : String), 0 ≤ target →
        StateInv (addGoal st title target newId))
    ∧ (∀ (id : String) (c : Int), StateInv (updateGoal st id c))
    ∧ (∀ id : String, StateInv (deleteGoal st id))
    ∧ (∀ (quest : Quest) (newId : String), StateInv (addCustomQuest st quest newId))
    ∧ (∀ id : String, StateInv (deleteCustomQuest st id)) := by
  refine ⟨fun today q c g ty mx => updateDailyProgress_inv st today q c g ty mx hinv,
    ?_, ?_,
    fun title target newId ht => addGoal_inv st title target newId hinv ht,
    fun id c => updateGoal_inv st id c hinv,
    fun id => deleteGoal_inv st id hinv,
    fun quest newId => addCustomQuest_inv st quest newId hinv,
    fun id => deleteCustomQuest_inv st id hinv⟩
  · intro today q c g mx hmx
    rw [updateDailyProgress_dailies_self, dailyDelta_counter]
    dsimp only
    omega
  · intro today q c g mx
    rw [updateDailyProgress_dailies_self, dailyDelta_bool_fst]
    split_ifs <;> omega

theorem claim_C7_witness :
    StateInv getDefaultState ∧ StateInv (deleteGoal getDefaultState "g1") :=
  ⟨by decide, (claim_C7 getDefaultState (by decide)).2.2.2.2.2.1 "g1"⟩

theorem claim_C2_witness :
    ("level_5" ∈ (checkAchievements
        { getDefaultState with xp := 1600 }).unlockedAchievements
      ↔ ("level_5" ∈ ({ getDefaultState with xp := 1600 } : AppState).unlockedAchievements
        ∨ xpForNextLevel 4 ≤ ({ getDefaultState with xp := 1600 } : AppState).xp)) :=
  (claim_C2 { getDefaultState with xp := 1600 }).1
